import Mathlib

/-!
Shallow embedding of the training orchestrator in `train.py` of the
multiband-hifigan repository: checkpoint restore, the per-step adversarial
loss aggregation, the training-loop step counter, periodic side effects,
and the validation runner.  Definitions are translated from the source;
numeric tensors are abstracted to the scalar loss values they contribute,
machine floats to rationals.
-/

namespace MBHifiGan

/-- The four learnable components of `train.py`: the generator and the three
discriminator heads (`mpd` period, `msd` scale, `mbd` band). -/
inductive Comp where
  | gen : Comp
  | mpd : Comp
  | msd : Comp
  | mbd : Comp
deriving DecidableEq, Repr

/-- A parameter identifier: which component it belongs to, and its index
inside that component's parameter list. -/
abbrev PId := Comp × Nat

/-- The generator-bundle checkpoint file (`g_`-named): it stores only the
generator state dict.  The blob is abstracted to a tag. -/
structure GenBundle where
  generator : Nat
deriving DecidableEq, Repr

/-- The optimizer+discriminator bundle checkpoint file (`do_`-named):
discriminator state dicts, both optimizer state dicts, the step counter and
the epoch, as written by `save_checkpoint` in `train.py`.  Blobs are
abstracted to tags. -/
structure DoBundle where
  mpd : Nat
  msd : Nat
  mbd : Nat
  optim_g : Nat
  optim_d : Nat
  steps : Nat
  epoch : Int
deriving DecidableEq, Repr

/-- The training state right after the restore block of `train.py`
(lines 50-79): the step counter, the epoch cursor handed to both
learning-rate schedulers, and which state dicts were loaded
(`none` = fresh initialization). -/
structure TrainInit where
  steps : Nat
  last_epoch : Int
  generator : Option Nat
  mpd : Option Nat
  msd : Option Nat
  mbd : Option Nat
  optim_g_state : Option Nat
  optim_d_state : Option Nat
deriving DecidableEq, Repr

/-- The fresh-start state: `steps = 0`, `last_epoch = -1`, nothing loaded
(the `cp_g is None or cp_do is None` branch of `train.py`). -/
def freshInit : TrainInit :=
  { steps := 0, last_epoch := -1, generator := none, mpd := none,
    msd := none, mbd := none, optim_g_state := none, optim_d_state := none }

/-- The restore logic of `train.py` lines 50-76: `cp_g`/`cp_do` are the
results of scanning the checkpoint directory for the two file name patterns
(`none` when no such file exists).  If either is missing the run starts
fresh; if both are present every state dict is loaded and
`steps = state_dict_do.steps + 1`, `last_epoch = state_dict_do.epoch`. -/
def resume (cp_g : Option GenBundle) (cp_do : Option DoBundle) : TrainInit :=
  match cp_g, cp_do with
  | some g, some d =>
      { steps := d.steps + 1, last_epoch := d.epoch,
        generator := some g.generator, mpd := some d.mpd, msd := some d.msd,
        mbd := some d.mbd, optim_g_state := some d.optim_g,
        optim_d_state := some d.optim_d }
  | _, _ => freshInit

/-- The epoch cursor handed to `ExponentialLR` for the generator scheduler
(`train.py` line 78). -/
def scheduler_g_cursor (i : TrainInit) : Int := i.last_epoch

/-- The epoch cursor handed to `ExponentialLR` for the discriminator
scheduler (`train.py` line 79). -/
def scheduler_d_cursor (i : TrainInit) : Int := i.last_epoch

/-- The list of epoch numbers the training loop runs:
`range(max(0, last_epoch), a.training_epochs)` from `train.py` line 119. -/
def epochRange (last_epoch : Int) (training_epochs : Nat) : List Nat :=
  List.range' (max 0 last_epoch).toNat
    (training_epochs - (max 0 last_epoch).toNat)

/-! ### Generator spectral loss aggregation (`train.py` lines 167-178) -/

/-- The `loss_g` accumulation of the training step, `train.py` lines 167-178:
start from `0`; if `use_stft` add the full-band spectral-convergence plus
log-magnitude loss `sc + mag`; if `use_subband_stft_loss` multiply the
accumulated value by `0.5` and add `0.5 * (sub_sc + sub_mag)`.  The scalar
loss values of the external STFT-loss collaborators are taken as inputs. -/
def trainLossG (use_stft use_sub : Bool) (sc mag sub_sc sub_mag : Rat) : Rat :=
  let loss_g : Rat := 0
  let loss_g := if use_stft then loss_g + (sc + mag) else loss_g
  if use_sub then loss_g * (1/2) + (1/2) * (sub_sc + sub_mag) else loss_g

/-- The mel term of the generator loss, `train.py` lines 181-183:
`F.l1_loss(y_mel, y_g_hat_mel) * 45` when `mel_loss` is set, else `0`.
The L1 distance itself is an input. -/
def trainLossMel (mel_loss : Bool) (l1 : Rat) : Rat :=
  if mel_loss then l1 * 45 else 0

/-! ### Generator-phase adversarial and feature-matching totals
(`train.py` lines 185-191).  The per-head scalar results of
`generator_loss` (adversarial) and `feature_loss` (feature matching) are
abstracted as functions from the head to its scalar value. -/

/-- The generator-phase total `loss_gen_all` built in `train.py` lines
185-191: the period (`mpd`) and scale (`msd`) heads are run on the
non-detached pair, and `loss_gen_all = loss_gen_s + loss_gen_f + loss_fm_s
+ loss_fm_f + loss_mel + loss_g`.  `adv h` is `generator_loss` of head
`h`'s fake scores, `fm h` is `feature_loss` of head `h`'s feature maps. -/
def loss_gen_all (adv fm : Comp → Rat) (loss_mel loss_g : Rat) : Rat :=
  adv Comp.msd + adv Comp.mpd + fm Comp.msd + fm Comp.mpd + loss_mel + loss_g

/-- Modelled from the spec: the generator-phase total as the specification
describes it, with the adversarial and feature-matching terms "summed
across all three heads" (period, scale and band). -/
def loss_gen_all_claimed (adv fm : Comp → Rat) (loss_mel loss_g : Rat) : Rat :=
  (adv Comp.mpd + adv Comp.msd + adv Comp.mbd)
    + (fm Comp.mpd + fm Comp.msd + fm Comp.mbd) + loss_mel + loss_g

/-- Sum of a per-head scalar over a list of heads. -/
def sumHeads (hs : List Comp) (f : Comp → Rat) : Rat := (hs.map f).sum

/-! ### Validation runner (`train.py` lines 227-280) -/

/-- The scalar loss contributions of one validation batch: the full-band
spectral terms `sc`/`mag`, the sub-band terms `sub_sc`/`sub_mag`, and the
mel L1 distance, each produced by external collaborators. -/
structure ValBatch where
  sc : Rat
  mag : Rat
  sub_sc : Rat
  sub_mag : Rat
  mel : Rat
deriving DecidableEq, Repr

/-- One iteration of the validation loop body acting on the running total
`val_err_tot` (`train.py` lines 247-265): if `use_stft` add `sc + mag`; if
`use_subband_stft_loss` multiply the running total by `0.5` and add
`0.5 * (sub_sc + sub_mag)`; if `mel_loss` add the mel L1 distance. -/
def valAccum (use_stft use_sub use_mel : Bool) (tot : Rat) (b : ValBatch) : Rat :=
  let tot := if use_stft then tot + (b.sc + b.mag) else tot
  let tot := if use_sub then tot * (1/2) + (1/2) * (b.sub_sc + b.sub_mag) else tot
  if use_mel then tot + b.mel else tot

/-- The reported validation value (`train.py` lines 230-279): fold the loop
body over every batch of the validation loader starting from `0`, then
divide by `j + 1` where `j` is the loop index after the loop - that is, by
the number of batches.  When the loader yields no batches the loop index
`j` is never bound and the division raises an unbound-local error, modelled
as `none`. -/
def valReport (use_stft use_sub use_mel : Bool) (bs : List ValBatch) : Option Rat :=
  match bs with
  | [] => none
  | _ => some ((bs.foldl (valAccum use_stft use_sub use_mel) 0) / (bs.length : Rat))

/-- Modelled from the spec: one validation batch's "enabled loss terms",
i.e. the same flag-gated combination a training step computes for a single
batch (spectral, sub-band spectral, mel). -/
def valBatchTerms (use_stft use_sub use_mel : Bool) (b : ValBatch) : Rat :=
  trainLossG use_stft use_sub b.sc b.mag b.sub_sc b.sub_mag
    + (if use_mel then b.mel else 0)

/-- Modelled from the spec: the claimed reported value, the plain mean of
the per-batch enabled loss terms over the number of validation batches. -/
def valClaimedMean (use_stft use_sub use_mel : Bool) (bs : List ValBatch) : Option Rat :=
  match bs with
  | [] => none
  | _ => some (((bs.map (valBatchTerms use_stft use_sub use_mel)).sum) / (bs.length : Rat))

/-! ### Step counter progression (`train.py` lines 119-290) -/

/-- The step-counter transition after one batch (`train.py` line 284):
`steps += 1`, unconditionally - the batch's total loss value (possibly
non-finite, modelled as `none`) and the process rank are ignored. -/
def batchStep (_rank : Nat) (steps : Nat) (_lossOutcome : Option Rat) : Nat :=
  steps + 1

/-- One epoch's inner batch loop: thread the step counter through every
batch, recording the step number at which each batch executes.  Returns the
final counter and the recorded trace. -/
def epochRun (rank : Nat) (s0 : Nat) : List (Option Rat) → Nat × List Nat
  | [] => (s0, [])
  | l :: ls =>
      let s1 := batchStep rank s0 l
      let r := epochRun rank s1 ls
      (r.1, s0 :: r.2)

/-- The outer epoch loop over a whole run: each element of `es` is the list
of per-batch loss outcomes of one epoch.  Returns the final step counter
and the concatenated trace of step numbers. -/
def fullRun (rank : Nat) (s0 : Nat) : List (List (Option Rat)) → Nat × List Nat
  | [] => (s0, [])
  | e :: es =>
      let r1 := epochRun rank s0 e
      let r2 := fullRun rank r1.1 es
      (r2.1, r1.2 ++ r2.2)

/-! ### Periodic side effects (`train.py` lines 196-227) -/

/-- The four periodic side effects of the inner loop. -/
inductive Effect where
  | stdoutLog : Effect
  | checkpoint : Effect
  | summary : Effect
  | validation : Effect
deriving DecidableEq, Repr

/-- The interval settings of the command line (`train.py` lines 306-309). -/
structure Intervals where
  stdout_interval : Nat
  checkpoint_interval : Nat
  summary_interval : Nat
  validation_interval : Nat
deriving DecidableEq, Repr

/-- The side effects executed after one batch at a given rank and step
counter value (`train.py` lines 196-227): everything is guarded by
`rank == 0`; logging fires when `steps % stdout_interval == 0`;
checkpointing when `steps % checkpoint_interval == 0 and steps != 0`;
summary emission when `steps % summary_interval == 0`; validation when
`steps % validation_interval == 0` (the `steps != 0` guard is commented
out in the source). -/
def effectsAt (rank : Nat) (steps : Nat) (a : Intervals) : List Effect :=
  if rank = 0 then
    (if steps % a.stdout_interval = 0 then [Effect.stdoutLog] else [])
      ++ (if steps % a.checkpoint_interval = 0 ∧ steps ≠ 0 then [Effect.checkpoint] else [])
      ++ (if steps % a.summary_interval = 0 then [Effect.summary] else [])
      ++ (if steps % a.validation_interval = 0 then [Effect.validation] else [])
  else []

/-! ### Epoch/step schedule (`train.py` lines 119, 127, 284): the (epoch,
step) pairs at which batches execute, with a fixed number `B` of batches
per epoch as the fixed-length training loader provides. -/

/-- The (epoch, step) pairs executed by the nested loops, in order: for each
epoch in the list, `B` batches, the global step counter incrementing once
per batch. -/
def schedulePairs (B : Nat) (s0 : Nat) : List Nat → List (Nat × Nat)
  | [] => []
  | e :: es =>
      ((List.range' s0 B).map (fun s => (e, s))) ++ schedulePairs B (s0 + B) es

/-- The full (epoch, step) schedule of a run that begins from the restore
state `i`: epochs from `range(max(0, last_epoch), training_epochs)`, the
step counter starting at `i.steps`. -/
def trainSchedule (i : TrainInit) (training_epochs B : Nat) : List (Nat × Nat) :=
  schedulePairs B i.steps (epochRange i.last_epoch training_epochs)

/-! ### Gradient flow model (`train.py` lines 70-72 and 146-163)

Scalar computation graphs over the learnable parameters, with a `detach`
node that blocks gradient flow exactly as `Tensor.detach()` does.  The
discriminator phase of the training step feeds the generator output into
every head only through `.detach()`. -/

/-- A scalar computation-graph expression: constants, data inputs,
learnable parameters, sums, products, and gradient detachment. -/
inductive Expr where
  | const : Rat → Expr
  | input : Nat → Expr
  | param : PId → Expr
  | add : Expr → Expr → Expr
  | mul : Expr → Expr → Expr
  | detach : Expr → Expr
deriving DecidableEq, Repr

/-- Forward evaluation of an expression at a parameter assignment `θ` and
data inputs `xs`; `detach` is the identity in the forward pass. -/
def Expr.eval (θ : PId → Rat) (xs : Nat → Rat) : Expr → Rat
  | .const c => c
  | .input i => xs i
  | .param p => θ p
  | .add a b => Expr.eval θ xs a + Expr.eval θ xs b
  | .mul a b => Expr.eval θ xs a * Expr.eval θ xs b
  | .detach e => Expr.eval θ xs e

/-- The derivative of an expression with respect to parameter `p`:
`detach` contributes zero, as backpropagation does not flow through it. -/
def Expr.grad (θ : PId → Rat) (xs : Nat → Rat) (p : PId) : Expr → Rat
  | .const _ => 0
  | .input _ => 0
  | .param q => if q = p then 1 else 0
  | .add a b => Expr.grad θ xs p a + Expr.grad θ xs p b
  | .mul a b =>
      Expr.grad θ xs p a * Expr.eval θ xs b + Expr.eval θ xs a * Expr.grad θ xs p b
  | .detach _ => 0

/-- The parameters an expression exposes to gradient flow: every `param`
occurrence that is not underneath a `detach`. -/
def Expr.liveParams : Expr → List PId
  | .const _ => []
  | .input _ => []
  | .param p => [p]
  | .add a b => Expr.liveParams a ++ Expr.liveParams b
  | .mul a b => Expr.liveParams a ++ Expr.liveParams b
  | .detach _ => []

/-- A discriminator head's loss computation, `(real, candidate) ↦ scalar
loss expression`, introduces no live generator parameter of its own: any
live generator parameter of the result was already live in one of the two
arguments.  This is the forward contract of the external discriminator
heads and loss collaborators, whose own parameters belong to `mpd`, `msd`
or `mbd`. -/
def NoGenIntro (F : Expr → Expr → Expr) : Prop :=
  ∀ a b : Expr, ∀ p ∈ (F a b).liveParams,
    p ∈ a.liveParams ∨ p ∈ b.liveParams ∨ p.1 ≠ Comp.gen

/-- The discriminator-phase total loss `loss_disc_all = loss_disc_s +
loss_disc_f + loss_disc_b` (`train.py` lines 148-160): each head-loss
computation `F` is applied to the real waveform `y` and the detached
generator output `Expr.detach yg` - the source calls every head as
`head(y, y_g_hat.detach())`. -/
def loss_disc_all (Fmpd Fmsd Fmbd : Expr → Expr → Expr) (y yg : Expr) : Expr :=
  Expr.add (Expr.add (Fmsd y (Expr.detach yg)) (Fmpd y (Expr.detach yg)))
    (Fmbd y (Expr.detach yg))

/-- Parameter ownership of the discriminator optimizer (`train.py` lines
71-72): `optim_d` is built over
`itertools.chain(msd.parameters(), mpd.parameters(), mbd.parameters())`. -/
def ownedByD (p : PId) : Bool :=
  match p.1 with
  | Comp.msd => true
  | Comp.mpd => true
  | Comp.mbd => true
  | Comp.gen => false

/-- Parameter ownership of the generator optimizer (`train.py` line 70):
`optim_g` is built over `generator.parameters()`. -/
def ownedByG (p : PId) : Bool :=
  match p.1 with
  | Comp.gen => true
  | _ => false

/-- An optimizer step: apply the update rule `upd` (which may read the
parameter's gradient, momentum buffers, etc.) to exactly the parameters the
optimizer owns, leaving every other parameter untouched. -/
def optStep (owned : PId → Bool) (upd : PId → Rat → Rat) (θ : PId → Rat) : PId → Rat :=
  fun p => if owned p then upd p (θ p) else θ p

/-- A concrete one-parameter discriminator head for witnesses: score the
(real, candidate) pair as `(real + candidate) * own-parameter`. -/
def wHead (c : Comp) : Expr → Expr → Expr :=
  fun r f => Expr.mul (Expr.add r f) (Expr.param (c, 0))

/-- A concrete parameter assignment for witnesses. -/
def wTheta : PId → Rat := fun _ => 2

/-- A concrete data-input assignment for witnesses. -/
def wXs : Nat → Rat := fun _ => 3

/-- A concrete generator-output graph for witnesses: one generator
parameter times one data input. -/
def wYg : Expr := Expr.mul (Expr.param (Comp.gen, 0)) (Expr.input 1)

/-! ### Helper lemmas -/

/-- The inner batch loop visits step numbers `s0, s0+1, ...`, one per batch,
and leaves the counter at `s0 + (number of batches)`. -/
theorem epochRun_eq (rank s0 : Nat) (ls : List (Option Rat)) :
    epochRun rank s0 ls = (s0 + ls.length, List.range' s0 ls.length) := by
  induction ls generalizing s0 with
  | nil => simp [epochRun]
  | cons l ls ih =>
      simp [epochRun, batchStep, ih, List.range'_succ]
      omega

/-- The whole run visits step numbers `s0, s0+1, ...` across epochs, one per
batch, and leaves the counter past the last batch. -/
theorem fullRun_eq (rank s0 : Nat) (es : List (List (Option Rat))) :
    fullRun rank s0 es
      = (s0 + (es.map List.length).sum, List.range' s0 ((es.map List.length).sum)) := by
  induction es generalizing s0 with
  | nil => simp [fullRun]
  | cons e es ih =>
      simp [fullRun, epochRun_eq, ih, List.range'_append]
      omega

/-- `List.range'` is a chain of successive numbers. -/
theorem range'_chain_succ (s n : Nat) :
    (List.range' s n).Chain' (fun a b => b = a + 1) := by
  induction n generalizing s with
  | zero => simp
  | succ n ih =>
      rw [List.range'_succ]
      cases n with
      | zero => simp
      | succ m =>
          rw [List.range'_succ]
          refine List.Chain'.cons rfl ?_
          rw [← List.range'_succ]
          exact ih (s + 1)

/-- In `Nat`, `n % m = 0` says exactly that `m` divides `n`, also when
`m = 0`. -/
theorem mod_eq_zero_iff_dvd (n m : Nat) : n % m = 0 ↔ m ∣ n :=
  Iff.symm Nat.dvd_iff_mod_eq_zero

/-- Folding an add-accumulate body is summation. -/
theorem foldl_add_eq_sum (f : ValBatch → Rat) (a : Rat) (l : List ValBatch) :
    l.foldl (fun t b => t + f b) a = a + (l.map f).sum := by
  induction l generalizing a with
  | nil => simp
  | cons b l ih => simp [ih, add_assoc]

/-- With the sub-band flag off, one validation-loop iteration adds exactly
that batch's enabled terms to the running total. -/
theorem valAccum_no_subband (use_stft use_mel : Bool) (tot : Rat) (b : ValBatch) :
    valAccum use_stft false use_mel tot b
      = tot + valBatchTerms use_stft false use_mel b := by
  cases use_stft <;> cases use_mel <;>
    simp [valAccum, valBatchTerms, trainLossG] <;> ring

/-- A parameter that is not live in an expression receives zero gradient
from it; in particular everything underneath `detach`. -/
theorem grad_eq_zero_of_not_live (θ : PId → Rat) (xs : Nat → Rat) (p : PId)
    (e : Expr) (h : p ∉ e.liveParams) : e.grad θ xs p = 0 := by
  induction e with
  | const c => rfl
  | input i => rfl
  | param q =>
      simp [Expr.liveParams] at h
      simp [Expr.grad, Ne.symm h]
  | add a b iha ihb =>
      simp [Expr.liveParams, List.mem_append, not_or] at h
      simp [Expr.grad, iha h.1, ihb h.2]
  | mul a b iha ihb =>
      simp [Expr.liveParams, List.mem_append, not_or] at h
      simp [Expr.grad, iha h.1, ihb h.2]
  | detach e ih => rfl

/-- Every epoch appearing in the (epoch, step) schedule comes from the
epoch list. -/
theorem schedulePairs_fst_mem (B : Nat) (es : List Nat) (s0 : Nat)
    (e s : Nat) (h : (e, s) ∈ schedulePairs B s0 es) : e ∈ es := by
  induction es generalizing s0 with
  | nil => simp [schedulePairs] at h
  | cons e0 es ih =>
      rw [schedulePairs, List.mem_append] at h
      rcases h with h | h
      · rcases List.mem_map.mp h with ⟨x, _, heq⟩
        cases heq
        exact List.mem_cons_self _ _
      · exact List.mem_cons_of_mem _ (ih _ h)

/-! ### Claim theorems -/

/-- Claim C1, counterexample: with only the generator-bundle checkpoint
file present (`cp_g = some`, `cp_do = none`), startup does not fail - it
silently treats the lone file as a fresh start, with step counter `0`,
nothing loaded (not even the present generator bundle) and fresh optimizer
state. -/
theorem lone_gen_checkpoint_fresh_start :
    resume (some ⟨7⟩) none = freshInit ∧
    (resume (some ⟨7⟩) none).steps = 0 ∧
    (resume (some ⟨7⟩) none).generator = none ∧
    (resume (some ⟨7⟩) none).optim_g_state = none ∧
    (resume (some ⟨7⟩) none).optim_d_state = none :=
  ⟨rfl, rfl, rfl, rfl, rfl⟩

/-- Claim C1, amended: if exactly one of the two checkpoint files is
present in the checkpoint directory, startup does not fail; it silently
ignores the lone file and resumes as a fresh start (no state dict loaded,
step counter `0`, scheduler cursor `-1`, fresh optimizer state). -/
theorem lone_checkpoint_is_fresh_start (g : GenBundle) (d : DoBundle) :
    resume (some g) none = freshInit ∧ resume none (some d) = freshInit :=
  ⟨rfl, rfl⟩

/-- Claim C4: when both checkpoint files exist, restore loads the
generator and all three discriminator state dicts, both optimizer states,
and hands the persisted epoch to both scheduler cursors; the step counter
is the persisted step plus one, and the first executed batch of the
continued run carries exactly that step number.  When no checkpoint
exists, the step counter starts at `0` with nothing loaded and scheduler
cursors `-1`. -/
theorem resume_restores_or_fresh (g : GenBundle) (d : DoBundle) :
    resume (some g) (some d) =
      { steps := d.steps + 1, last_epoch := d.epoch,
        generator := some g.generator, mpd := some d.mpd, msd := some d.msd,
        mbd := some d.mbd, optim_g_state := some d.optim_g,
        optim_d_state := some d.optim_d } ∧
    scheduler_g_cursor (resume (some g) (some d)) = d.epoch ∧
    scheduler_d_cursor (resume (some g) (some d)) = d.epoch ∧
    (∀ (l : Option Rat) (ls : List (Option Rat)) (es : List (List (Option Rat))),
      (fullRun 0 (resume (some g) (some d)).steps ((l :: ls) :: es)).2.head?
        = some (d.steps + 1)) ∧
    resume none none = freshInit ∧
    freshInit.steps = 0 ∧
    freshInit.generator = none ∧
    freshInit.optim_g_state = none ∧
    freshInit.optim_d_state = none ∧
    scheduler_g_cursor freshInit = -1 ∧
    scheduler_d_cursor freshInit = -1 :=
  ⟨rfl, rfl, rfl, fun _ _ _ => rfl, rfl, rfl, rfl, rfl, rfl, rfl, rfl⟩

/-- Claim C6: whenever the sub-band spectral flag is set, the accumulated
full-band spectral loss is halved before the sub-band term is added at
weight one half, and this happens even when the full-band flag is off, in
which case the halving acts on zero. -/
theorem subband_halves_spectral (use_stft : Bool) (sc mag sub_sc sub_mag : Rat) :
    trainLossG use_stft true sc mag sub_sc sub_mag
      = trainLossG use_stft false sc mag sub_sc sub_mag * (1/2)
          + (1/2) * (sub_sc + sub_mag) ∧
    trainLossG false true sc mag sub_sc sub_mag
      = 0 * (1/2) + (1/2) * (sub_sc + sub_mag) := by
  cases use_stft <;> simp [trainLossG]

/-- Claim C7: the step counter is incremented exactly once after each
processed batch - unconditionally, whatever the batch's loss outcome
(including a non-finite one, `none`) and whatever the process rank - so
the step numbers recorded over a whole run form the contiguous, strictly
increasing block starting at the initial counter, with no gaps or
repeats. -/
theorem steps_contiguous (rank s0 : Nat) (es : List (List (Option Rat))) :
    (∀ (l : Option Rat) (s : Nat), batchStep rank s l = s + 1) ∧
    (fullRun rank s0 es).2 = List.range' s0 ((es.map List.length).sum) ∧
    (fullRun rank s0 es).2.Chain' (fun a b => b = a + 1) ∧
    (fullRun rank s0 es).2.Pairwise (· < ·) := by
  refine ⟨fun _ _ => rfl, ?_, ?_, ?_⟩
  · rw [fullRun_eq]
  · rw [fullRun_eq]
    exact range'_chain_succ s0 _
  · rw [fullRun_eq]
    exact List.pairwise_lt_range' s0 _

/-- Claim C10: a validation pass over zero batches crashes (the loop index
used in the divisor is never bound), modelled as `none`; with at least one
batch the reported mean is well defined, for every flag combination. -/
theorem val_empty_crashes (use_stft use_sub use_mel : Bool) :
    valReport use_stft use_sub use_mel [] = none ∧
    (∀ (b : ValBatch) (bs : List ValBatch),
      (valReport use_stft use_sub use_mel (b :: bs)).isSome = true) :=
  ⟨rfl, fun _ _ => rfl⟩

/-- Claim C2, counterexample: with every head's adversarial and
feature-matching value equal to `1` and zero mel and spectral terms, the
generator-phase total built by the code is `4` (period and scale heads
only), while the claimed sum across all three heads is `6` - the band
head's terms never enter `loss_gen_all`. -/
theorem band_head_absent_counterexample :
    loss_gen_all (fun _ => 1) (fun _ => 1) 0 0
      ≠ loss_gen_all_claimed (fun _ => 1) (fun _ => 1) 0 0 := by
  norm_num [loss_gen_all, loss_gen_all_claimed]

/-- Claim C2, amended: in the generator phase only the period and scale
heads are re-run on the (real, synthesized) pair, and the feature-matching
and adversarial losses are summed over those two heads only; the band
head's adversarial and feature-matching values are absent from the total,
which is invariant under changing them. -/
theorem gen_phase_two_heads (adv fm : Comp → Rat) (loss_mel loss_g v w : Rat) :
    loss_gen_all adv fm loss_mel loss_g
      = sumHeads [Comp.msd, Comp.mpd] adv + sumHeads [Comp.msd, Comp.mpd] fm
          + loss_mel + loss_g ∧
    loss_gen_all (Function.update adv Comp.mbd v) (Function.update fm Comp.mbd w)
        loss_mel loss_g
      = loss_gen_all adv fm loss_mel loss_g := by
  constructor
  · simp [loss_gen_all, sumHeads]
    ring
  · simp [loss_gen_all, Function.update]

/-- Claim C3, counterexample: with the full-band and sub-band flags on and
two identical validation batches whose full-band spectral loss is `4` (all
other terms zero), the code reports `3/2` - the second iteration halves
the first batch's already-accumulated contribution - while the claimed
plain mean of per-batch enabled terms is `2`. -/
theorem val_mean_counterexample :
    valReport true true false
        [⟨4, 0, 0, 0, 0⟩, ⟨4, 0, 0, 0, 0⟩]
      ≠ valClaimedMean true true false
        [⟨4, 0, 0, 0, 0⟩, ⟨4, 0, 0, 0, 0⟩] := by
  norm_num [valReport, valClaimedMean, valAccum, valBatchTerms, trainLossG]

/-- Claim C3, amended: the validation pass folds its flag-gated loop body
over the full validation partition once and divides by the batch count;
the reported value equals the plain mean of the per-batch enabled loss
terms whenever the sub-band flag is disabled, but not in general when it
is enabled, since the per-batch halving then acts on the whole running
total. -/
theorem val_mean_plain_when_no_subband (use_stft use_mel : Bool)
    (bs : List ValBatch) (hbs : bs ≠ []) :
    valReport use_stft false use_mel bs
      = valClaimedMean use_stft false use_mel bs := by
  have hfold : ∀ a : Rat, bs.foldl (valAccum use_stft false use_mel) a
      = a + (bs.map (valBatchTerms use_stft false use_mel)).sum := by
    intro a
    have : valAccum use_stft false use_mel
        = fun t b => t + valBatchTerms use_stft false use_mel b :=
      funext fun t => funext fun b => valAccum_no_subband use_stft use_mel t b
    rw [this, foldl_add_eq_sum]
  cases bs with
  | nil => exact absurd rfl hbs
  | cons b bs =>
      simp only [valReport, valClaimedMean, hfold 0, zero_add]

/-- Witness for the amended claim C3 at one concrete batch list. -/
theorem val_mean_plain_when_no_subband_witness :
    valReport true false true [⟨1, 2, 0, 0, 3⟩]
      = valClaimedMean true false true [⟨1, 2, 0, 0, 3⟩] :=
  val_mean_plain_when_no_subband true true [⟨1, 2, 0, 0, 3⟩] (by simp)

/-- Claim C8: periodic side effects execute only at rank `0`; the
checkpoint effect fires exactly at the steps that are nonzero multiples of
the checkpoint interval (so never at step `0`), and the validation effect
fires exactly at the multiples of the validation interval, step `0`
included. -/
theorem periodic_effects_gating (rank steps : Nat) (a : Intervals) :
    (rank ≠ 0 → effectsAt rank steps a = []) ∧
    (Effect.checkpoint ∈ effectsAt rank steps a ↔
      rank = 0 ∧ a.checkpoint_interval ∣ steps ∧ steps ≠ 0) ∧
    (Effect.validation ∈ effectsAt rank steps a ↔
      rank = 0 ∧ a.validation_interval ∣ steps) ∧
    Effect.validation ∈ effectsAt 0 0 a ∧
    Effect.checkpoint ∉ effectsAt 0 0 a := by
  refine ⟨fun h => by simp [effectsAt, h], ?_, ?_, ?_, ?_⟩
  · by_cases hr : rank = 0
    · subst hr
      unfold effectsAt
      rw [if_pos rfl]
      split_ifs <;> simp_all [mod_eq_zero_iff_dvd]
    · simp [effectsAt, hr]
  · by_cases hr : rank = 0
    · subst hr
      unfold effectsAt
      rw [if_pos rfl]
      split_ifs <;> simp_all [mod_eq_zero_iff_dvd]
    · simp [effectsAt, hr]
  · simp [effectsAt]
  · simp [effectsAt]

/-- Witness for claim C8 at a non-authority rank and concrete intervals:
no periodic side effect executes away from rank 0. -/
theorem periodic_effects_gating_witness :
    effectsAt 1 5 ⟨1, 2, 3, 4⟩ = [] :=
  (periodic_effects_gating 1 5 ⟨1, 2, 3, 4⟩).1 (by decide)

/-- The witness head introduces no live generator parameter of its own. -/
theorem wHead_noGenIntro (c : Comp) (hc : c ≠ Comp.gen) : NoGenIntro (wHead c) := by
  intro a b p hp
  simp only [wHead, Expr.liveParams, List.mem_append, List.mem_singleton] at hp
  rcases hp with (h | h) | h
  · exact Or.inl h
  · exact Or.inr (Or.inl h)
  · subst h
    exact Or.inr (Or.inr hc)

/-- Claim C5: the generator optimizer owns exactly the generator's
parameters and the discriminator optimizer the three heads' parameters -
disjoint sets - so a discriminator-only step changes no generator
parameter and a generator-only step changes no discriminator parameter;
moreover the discriminator-phase loss is computed on the detached
generator output, so its gradient with respect to every generator
parameter is zero, for any head computations that introduce no live
generator parameters of their own and any real waveform free of generator
parameters. -/
theorem optimizers_disjoint_and_detach (Fmpd Fmsd Fmbd : Expr → Expr → Expr)
    (hmpd : NoGenIntro Fmpd) (hmsd : NoGenIntro Fmsd) (hmbd : NoGenIntro Fmbd)
    (y yg : Expr) (hy : ∀ p ∈ y.liveParams, p.1 ≠ Comp.gen)
    (θ : PId → Rat) (xs : ℕ → Rat) (i : ℕ) (lr : Rat) :
    (loss_disc_all Fmpd Fmsd Fmbd y yg).grad θ xs (Comp.gen, i) = 0 ∧
    (∀ p : PId, ¬(ownedByG p = true ∧ ownedByD p = true)) ∧
    (∀ (upd : PId → Rat → Rat) (j : ℕ),
      optStep ownedByD upd θ (Comp.gen, j) = θ (Comp.gen, j)) ∧
    (∀ (upd : PId → Rat → Rat) (c : Comp) (j : ℕ), c ≠ Comp.gen →
      optStep ownedByG upd θ (c, j) = θ (c, j)) ∧
    optStep ownedByD
        (fun p v => v - lr * (loss_disc_all Fmpd Fmsd Fmbd y yg).grad θ xs p)
        θ (Comp.gen, i)
      = θ (Comp.gen, i) := by
  have hnl : (Comp.gen, i) ∉ (loss_disc_all Fmpd Fmsd Fmbd y yg).liveParams := by
    intro hmem
    simp only [loss_disc_all, Expr.liveParams, List.mem_append] at hmem
    rcases hmem with (h | h) | h
    · rcases hmsd _ _ _ h with h' | h' | h'
      · exact hy _ h' rfl
      · simp [Expr.liveParams] at h'
      · exact h' rfl
    · rcases hmpd _ _ _ h with h' | h' | h'
      · exact hy _ h' rfl
      · simp [Expr.liveParams] at h'
      · exact h' rfl
    · rcases hmbd _ _ _ h with h' | h' | h'
      · exact hy _ h' rfl
      · simp [Expr.liveParams] at h'
      · exact h' rfl
  refine ⟨grad_eq_zero_of_not_live θ xs _ _ hnl, ?_, ?_, ?_, ?_⟩
  · rintro ⟨c, j⟩ ⟨hg, hd⟩
    cases c <;> simp [ownedByG, ownedByD] at hg hd
  · intro upd j
    simp [optStep, ownedByD]
  · intro upd c j hc
    cases c
    · exact absurd rfl hc
    all_goals simp [optStep, ownedByG]
  · simp [optStep, ownedByD]

/-- Witness for claim C5 at a concrete computation graph. -/
theorem optimizers_disjoint_and_detach_witness :
    (loss_disc_all (wHead Comp.mpd) (wHead Comp.msd) (wHead Comp.mbd)
        (Expr.input 0) wYg).grad wTheta wXs (Comp.gen, 0) = 0 ∧
    (∀ p : PId, ¬(ownedByG p = true ∧ ownedByD p = true)) ∧
    (∀ (upd : PId → Rat → Rat) (j : ℕ),
      optStep ownedByD upd wTheta (Comp.gen, j) = wTheta (Comp.gen, j)) ∧
    (∀ (upd : PId → Rat → Rat) (c : Comp) (j : ℕ), c ≠ Comp.gen →
      optStep ownedByG upd wTheta (c, j) = wTheta (c, j)) ∧
    optStep ownedByD
        (fun p v => v - 1 * (loss_disc_all (wHead Comp.mpd) (wHead Comp.msd)
            (wHead Comp.mbd) (Expr.input 0) wYg).grad wTheta wXs p)
        wTheta (Comp.gen, 0)
      = wTheta (Comp.gen, 0) :=
  optimizers_disjoint_and_detach (wHead Comp.mpd) (wHead Comp.msd) (wHead Comp.mbd)
    (wHead_noGenIntro Comp.mpd (by decide)) (wHead_noGenIntro Comp.msd (by decide))
    (wHead_noGenIntro Comp.mbd (by decide)) (Expr.input 0) wYg
    (by simp [Expr.liveParams]) wTheta wXs 0 1

/-- Claim C9: after restoring a checkpoint persisted at epoch `E ≥ 0` and
step `S`, the epoch loop runs `range(max(0, E), training_epochs)`, so it
re-enters epoch `E` itself and re-runs all `B` of its batches, while the
step counter continues at `S + 1`: the first batch after resume is
(epoch `E`, step `S + 1`), and there are runs in which the same step
number executes in different epochs in the resumed and the uninterrupted
schedule. -/
theorem resume_rewinds_epoch (g : GenBundle) (d : DoBundle) (T B : ℕ)
    (hE : 0 ≤ d.epoch) (hT : d.epoch.toNat < T) (hB : 0 < B) :
    epochRange (resume (some g) (some d)).last_epoch T
      = List.range' d.epoch.toNat (T - d.epoch.toNat) ∧
    (trainSchedule (resume (some g) (some d)) T B).head?
      = some (d.epoch.toNat, d.steps + 1) ∧
    ((trainSchedule (resume (some g) (some d)) T B).filter
        (fun pr => decide (pr.1 = d.epoch.toNat))).length = B ∧
    (∃ (d' : DoBundle) (Tx Bx s e ex : ℕ), e ≠ ex ∧
      (e, s) ∈ trainSchedule (resume (some g) (some d')) Tx Bx ∧
      (ex, s) ∈ trainSchedule freshInit Tx Bx) := by
  have hmax : max 0 d.epoch = d.epoch := max_eq_right hE
  obtain ⟨n, hn⟩ : ∃ n, T - d.epoch.toNat = n + 1 :=
    ⟨T - d.epoch.toNat - 1, by omega⟩
  have hrange : epochRange (resume (some g) (some d)).last_epoch T
      = List.range' d.epoch.toNat (T - d.epoch.toNat) := by
    show epochRange d.epoch T = _
    unfold epochRange
    rw [hmax]
  have h2 : epochRange (resume (some g) (some d)).last_epoch T
      = d.epoch.toNat :: List.range' (d.epoch.toNat + 1) n := by
    rw [hrange, hn, List.range'_succ]
  refine ⟨hrange, ?_, ?_, ?_⟩
  · cases B with
    | zero => exact absurd hB (by omega)
    | succ b =>
        show (schedulePairs (b + 1) (d.steps + 1)
            (epochRange (resume (some g) (some d)).last_epoch T)).head? = _
        rw [h2]
        simp [schedulePairs, List.range'_succ]
  · have hblock : (((List.range' (d.steps + 1) B).map
        (fun s => (d.epoch.toNat, s))).filter
        (fun pr => decide (pr.1 = d.epoch.toNat))).length = B := by
      rw [List.filter_eq_self.mpr]
      · simp
      · intro a ha
        rcases List.mem_map.mp ha with ⟨x, _, rfl⟩
        simp
    have hrest : (schedulePairs B (d.steps + 1 + B)
        (List.range' (d.epoch.toNat + 1) n)).filter
        (fun pr => decide (pr.1 = d.epoch.toNat)) = [] := by
      rw [List.filter_eq_nil_iff]
      intro a ha
      have hmem : a.1 ∈ List.range' (d.epoch.toNat + 1) n := by
        rcases a with ⟨e1, s1⟩
        exact schedulePairs_fst_mem B _ _ e1 s1 ha
      have h3 : d.epoch.toNat + 1 ≤ a.1 := (List.mem_range'_1.mp hmem).1
      simp
      omega
    show ((schedulePairs B (d.steps + 1)
        (epochRange (resume (some g) (some d)).last_epoch T)).filter
        (fun pr => decide (pr.1 = d.epoch.toNat))).length = B
    rw [h2]
    simp only [schedulePairs]
    rw [List.filter_append, List.length_append, hrest]
    simp [hblock]
  · refine ⟨⟨0, 0, 0, 0, 0, 1, 0⟩, 2, 2, 2, 0, 1, by decide, ?_, ?_⟩
    · exact (by decide : (0, 2) ∈ ([(0, 2), (0, 3), (1, 4), (1, 5)] : List (ℕ × ℕ)))
    · exact (by decide : (1, 2) ∈ ([(0, 0), (0, 1), (1, 2), (1, 3)] : List (ℕ × ℕ)))

/-- Witness for claim C9 at a concrete checkpoint (epoch 1, step 5),
three training epochs and two batches per epoch. -/
theorem resume_rewinds_epoch_witness :
    epochRange (resume (some ⟨0⟩) (some ⟨0, 0, 0, 0, 0, 5, 1⟩)).last_epoch 3
      = List.range' 1 2 ∧
    (trainSchedule (resume (some ⟨0⟩) (some ⟨0, 0, 0, 0, 0, 5, 1⟩)) 3 2).head?
      = some (1, 6) ∧
    ((trainSchedule (resume (some ⟨0⟩) (some ⟨0, 0, 0, 0, 0, 5, 1⟩)) 3 2).filter
        (fun pr => decide (pr.1 = 1))).length = 2 ∧
    (∃ (d' : DoBundle) (Tx Bx s e ex : ℕ), e ≠ ex ∧
      (e, s) ∈ trainSchedule (resume (some ⟨0⟩) (some d')) Tx Bx ∧
      (ex, s) ∈ trainSchedule freshInit Tx Bx) :=
  resume_rewinds_epoch ⟨0⟩ ⟨0, 0, 0, 0, 0, 5, 1⟩ 3 2 (by decide) (by decide)
    (by decide)

end MBHifiGan
